import Mathlib

/-!
Verification development for `deep2nep.py`, a one-shot converter from the
deepmd per-system/per-subset array layout to the NEP `train.in` text format.

The shallow embedding below translates the source functions
(`convervirial`, `vec2volume`, `load_type`, `load_set`, `to_system_data`,
`read_multi_deepmd`, `dump`) into executable Lean definitions:

* numpy arrays become (nested) `List`s; the 3×3 matrices that `virial`,
  `box` and `cell` data are reshaped into become a `Mat3` record and atom
  rows a `Vec3` record;
* numeric scalars (Python floats) are modeled as exact integers `ℤ`; the
  claims under study are structural and algebraic (shapes, ordering, text
  layout, ring identities), none depends on rounding;
* dictionary keys that may be absent (`energies`, `forces`, `virials`,
  `type_map.raw`, optional npy files) become `Option` fields; a read of an
  absent key (Python `KeyError`), a failing `np.reshape`, and the other
  fatal error paths of the script surface as `Except String`;
* Python's `str` applied to an integer is modeled by `natRepr`/`intRepr`
  (decimal rendering); the only property the claims use is that the
  rendering is space- and newline-free and is parsed back by the decimal
  parser, which holds of Python's renderings as well.
-/

/-- Decimal digit to its character, `'*'` as a never-used default. -/
def digitCh : ℕ → Char
  | 0 => '0'
  | 1 => '1'
  | 2 => '2'
  | 3 => '3'
  | 4 => '4'
  | 5 => '5'
  | 6 => '6'
  | 7 => '7'
  | 8 => '8'
  | 9 => '9'
  | _ => '*'

/-- Character back to its digit value. -/
def charDigit (c : Char) : ℕ := c.toNat - 48

/-- Is the character a decimal digit? -/
def isDigitCh (c : Char) : Bool := 48 ≤ c.toNat && c.toNat ≤ 57

/-- Little-endian decimal digits of `n`, with explicit fuel so that the
definition is structural and kernel-reducible. -/
def digitsRevNat : ℕ → ℕ → List ℕ
  | 0, _ => []
  | fuel + 1, n => if n = 0 then [] else n % 10 :: digitsRevNat fuel (n / 10)

/-- Value of a little-endian digit list. -/
def ofDigitsLE : List ℕ → ℕ
  | [] => 0
  | d :: ds => d + 10 * ofDigitsLE ds

/-- Characters of the decimal rendering of `n` (Python `str(n)`). -/
def natReprChars (n : ℕ) : List Char :=
  (if n = 0 then [0] else (digitsRevNat n n).reverse).map digitCh

/-- Decimal rendering of a natural number, as used by the serializer. -/
def natRepr (n : ℕ) : String := ⟨natReprChars n⟩

/-- Parse a digit string (Python `int(...)` on a token); `none` on empty or
non-digit input. -/
def parseNatChars (cs : List Char) : Option ℕ :=
  if cs.isEmpty then none
  else if cs.all isDigitCh then
    some (cs.foldl (fun a c => a * 10 + charDigit c) 0)
  else none

theorem digitsRevNat_ofDigitsLE (fuel : ℕ) :
    ∀ n, n ≤ fuel → ofDigitsLE (digitsRevNat fuel n) = n := by
  induction fuel with
  | zero =>
    intro n hn
    interval_cases n
    rfl
  | succ fuel ih =>
    intro n hn
    by_cases h0 : n = 0
    · subst h0; simp [digitsRevNat, ofDigitsLE]
    · have hdiv : n / 10 ≤ fuel := by
        have : n / 10 < n := Nat.div_lt_self (Nat.pos_of_ne_zero h0) (by omega)
        omega
      simp only [digitsRevNat, if_neg h0, ofDigitsLE, ih (n / 10) hdiv]
      omega

theorem digitsRevNat_lt_ten (fuel : ℕ) :
    ∀ n d, d ∈ digitsRevNat fuel n → d < 10 := by
  induction fuel with
  | zero => intro n d hd; simp [digitsRevNat] at hd
  | succ fuel ih =>
    intro n d hd
    by_cases h0 : n = 0
    · subst h0; simp [digitsRevNat] at hd
    · simp only [digitsRevNat, if_neg h0, List.mem_cons] at hd
      rcases hd with h | h
      · subst h; exact Nat.mod_lt _ (by omega)
      · exact ih _ _ h

theorem digitsRevNat_ne_nil (fuel n : ℕ) (h0 : n ≠ 0) (hle : n ≤ fuel) :
    digitsRevNat fuel n ≠ [] := by
  cases fuel with
  | zero => omega
  | succ fuel => simp [digitsRevNat, if_neg h0]

theorem charDigit_digitCh (d : ℕ) (hd : d < 10) : charDigit (digitCh d) = d := by
  interval_cases d <;> rfl

theorem isDigitCh_digitCh (d : ℕ) (hd : d < 10) : isDigitCh (digitCh d) = true := by
  interval_cases d <;> rfl

theorem digitCh_ne_space (d : ℕ) : digitCh d ≠ ' ' := by
  match d with
  | 0 | 1 | 2 | 3 | 4 | 5 | 6 | 7 | 8 | 9 => decide
  | n + 10 =>
    have h : digitCh (n + 10) = '*' := rfl
    rw [h]; decide

theorem digitCh_ne_newline (d : ℕ) : digitCh d ≠ '\n' := by
  match d with
  | 0 | 1 | 2 | 3 | 4 | 5 | 6 | 7 | 8 | 9 => decide
  | n + 10 =>
    have h : digitCh (n + 10) = '*' := rfl
    rw [h]; decide

theorem natReprChars_ne_nil (n : ℕ) : natReprChars n ≠ [] := by
  unfold natReprChars
  by_cases h0 : n = 0
  · subst h0; decide
  · simp only [if_neg h0]
    intro hmap
    exact digitsRevNat_ne_nil n n h0 le_rfl (by
      have := List.map_eq_nil_iff.mp hmap
      simpa using this)

theorem natReprChars_no_space {n : ℕ} {c : Char} (hc : c ∈ natReprChars n) :
    c ≠ ' ' ∧ c ≠ '\n' := by
  unfold natReprChars at hc
  rcases List.mem_map.mp hc with ⟨d, hd, rfl⟩
  exact ⟨digitCh_ne_space d, digitCh_ne_newline d⟩

theorem foldl_reverse_map_digitCh (ds : List ℕ) (hds : ∀ d ∈ ds, d < 10) :
    List.foldl (fun a c => a * 10 + charDigit c) 0 (ds.reverse.map digitCh) =
      ofDigitsLE ds := by
  induction ds with
  | nil => rfl
  | cons d ds ih =>
    have hd : d < 10 := hds d (by simp)
    have hds2 : ∀ x ∈ ds, x < 10 := fun x hx => hds x (by simp [hx])
    simp only [List.reverse_cons, List.map_append, List.foldl_append,
      ih hds2, List.map_cons, List.map_nil, List.foldl_cons, List.foldl_nil,
      charDigit_digitCh d hd, ofDigitsLE]
    omega

theorem parseNatChars_natReprChars (n : ℕ) :
    parseNatChars (natReprChars n) = some n := by
  by_cases h0 : n = 0
  · subst h0; decide
  · have hne := natReprChars_ne_nil n
    have hlt : ∀ d ∈ digitsRevNat n n, d < 10 := digitsRevNat_lt_ten n n
    have hall : (natReprChars n).all isDigitCh = true := by
      apply List.all_eq_true.mpr
      intro c hc
      unfold natReprChars at hc
      rcases List.mem_map.mp hc with ⟨d, hd, rfl⟩
      simp only [if_neg h0, List.mem_reverse] at hd
      exact isDigitCh_digitCh d (hlt d hd)
    unfold parseNatChars
    rw [if_neg (by simpa [List.isEmpty_iff] using hne), if_pos hall]
    unfold natReprChars
    rw [if_neg h0]
    rw [foldl_reverse_map_digitCh (digitsRevNat n n) hlt]
    rw [digitsRevNat_ofDigitsLE n n le_rfl]

/-- Split a character list at spaces (the token structure of one output
line; `' '.join` / `str.split` view). -/
def splitSp : List Char → List (List Char)
  | [] => [[]]
  | c :: cs =>
    if c = ' ' then [] :: splitSp cs
    else
      match splitSp cs with
      | [] => [[c]]
      | t :: ts => (c :: t) :: ts

/-- Join character lists with single spaces (Python `' '.join`). -/
def sepJoinSp : List (List Char) → List Char
  | [] => []
  | [x] => x
  | x :: y :: xs => x ++ ' ' :: sepJoinSp (y :: xs)

/-- `' '.join` on strings, as used for the virial, cell, coordinate and
force fields of one output line. -/
def joinSp (l : List String) : String := ⟨sepJoinSp (l.map String.data)⟩

theorem splitSp_ne_nil (cs : List Char) : splitSp cs ≠ [] := by
  induction cs with
  | nil => simp [splitSp]
  | cons c cs ih =>
    by_cases hc : c = ' '
    · simp [splitSp, hc]
    · simp only [splitSp, if_neg hc]
      cases h : splitSp cs with
      | nil => simp
      | cons t ts => simp

theorem splitSp_no_space (cs : List Char) (h : ∀ c ∈ cs, c ≠ ' ') :
    splitSp cs = [cs] := by
  induction cs with
  | nil => rfl
  | cons c cs ih =>
    have hc : c ≠ ' ' := h c (by simp)
    have ih2 := ih (fun x hx => h x (by simp [hx]))
    simp [splitSp, if_neg hc, ih2]

theorem splitSp_append (xs rest : List Char) (h : ∀ c ∈ xs, c ≠ ' ') :
    splitSp (xs ++ ' ' :: rest) = xs :: splitSp rest := by
  induction xs with
  | nil => simp [splitSp]
  | cons c cs ih =>
    have hc : c ≠ ' ' := h c (by simp)
    have ih2 := ih (fun x hx => h x (by simp [hx]))
    show splitSp (c :: (cs ++ ' ' :: rest)) = (c :: cs) :: splitSp rest
    rw [splitSp, if_neg hc, ih2]

theorem splitSp_sepJoinSp (ps : List (List Char)) (hne : ps ≠ [])
    (h : ∀ p ∈ ps, ∀ c ∈ p, c ≠ ' ') : splitSp (sepJoinSp ps) = ps := by
  induction ps with
  | nil => exact absurd rfl hne
  | cons x xs ih =>
    cases xs with
    | nil =>
      simp only [sepJoinSp]
      exact splitSp_no_space x (h x (by simp))
    | cons y ys =>
      have h1 : ∀ c ∈ x, c ≠ ' ' := h x (by simp)
      have h2 : ∀ p ∈ y :: ys, ∀ c ∈ p, c ≠ ' ' := fun p hp => h p (by simp [hp])
      simp only [sepJoinSp, splitSp_append x _ h1, ih (by simp) h2]

/-- The part of `cs` before the first newline. -/
def takeLine (cs : List Char) : List Char := cs.takeWhile (fun c => c != '\n')

/-- The part of `cs` after the first newline. -/
def dropLine (cs : List Char) : List Char :=
  (cs.dropWhile (fun c => c != '\n')).drop 1

theorem takeLine_append (xs rest : List Char) (h : ∀ c ∈ xs, c ≠ '\n') :
    takeLine (xs ++ '\n' :: rest) = xs := by
  induction xs with
  | nil => simp [takeLine, List.takeWhile]
  | cons c cs ih =>
    have hc : c ≠ '\n' := h c (by simp)
    have ih2 := ih (fun x hx => h x (by simp [hx]))
    have hbc : (c != '\n') = true := by simp [bne_iff_ne, hc]
    show List.takeWhile (fun x => x != '\n') (c :: (cs ++ '\n' :: rest)) = c :: cs
    rw [List.takeWhile_cons, hbc]
    simpa [takeLine] using ih2

theorem dropLine_append (xs rest : List Char) (h : ∀ c ∈ xs, c ≠ '\n') :
    dropLine (xs ++ '\n' :: rest) = rest := by
  induction xs with
  | nil => simp [dropLine, List.dropWhile]
  | cons c cs ih =>
    have hc : c ≠ '\n' := h c (by simp)
    have ih2 := ih (fun x hx => h x (by simp [hx]))
    have hbc : (c != '\n') = true := by simp [bne_iff_ne, hc]
    show (List.dropWhile (fun x => x != '\n') (c :: (cs ++ '\n' :: rest))).drop 1 = rest
    rw [List.dropWhile_cons, hbc]
    simpa [dropLine] using ih2

/-- Decimal rendering of an integer (Python `str` of a numeric value; see
the header comment for the float-to-`ℤ` modeling). -/
def intRepr (x : ℤ) : String := (if x < 0 then "-" else "") ++ natRepr x.natAbs

theorem intRepr_no_space {x : ℤ} {c : Char} (hc : c ∈ (intRepr x).data) :
    c ≠ ' ' ∧ c ≠ '\n' := by
  unfold intRepr at hc
  rw [String.data_append] at hc
  rcases List.mem_append.mp hc with h | h
  · by_cases hx : x < 0
    · rw [if_pos hx] at h
      simp only [show ("-" : String).data = ['-'] from rfl, List.mem_singleton] at h
      subst h; exact ⟨by decide, by decide⟩
    · rw [if_neg hx] at h
      simp [show ("" : String).data = [] from rfl] at h
  · exact natReprChars_no_space h

/-- One atom row (a length-3 slice of a `coord`/`force` array). -/
structure Vec3 where
  x : ℤ
  y : ℤ
  z : ℤ
deriving DecidableEq, Inhabited

/-- One 3×3 matrix (a cell or virial block after `np.reshape(..., [-1,3,3])`),
entry `mij` at row `i`, column `j`. -/
structure Mat3 where
  m00 : ℤ
  m01 : ℤ
  m02 : ℤ
  m10 : ℤ
  m11 : ℤ
  m12 : ℤ
  m20 : ℤ
  m21 : ℤ
  m22 : ℤ
deriving DecidableEq, Inhabited

/-- Matrix entry by indices, `mat3Entry m i j = M[i,j]`. -/
def mat3Entry (m : Mat3) (i j : Fin 3) : ℤ :=
  match i, j with
  | 0, 0 => m.m00
  | 0, 1 => m.m01
  | 0, 2 => m.m02
  | 1, 0 => m.m10
  | 1, 1 => m.m11
  | 1, 2 => m.m12
  | 2, 0 => m.m20
  | 2, 1 => m.m21
  | 2, 2 => m.m22

/-- Row-major flattening of a 3×3 matrix (`np.reshape(..., 9)`). -/
def mat3Flat (m : Mat3) : List ℤ :=
  [m.m00, m.m01, m.m02, m.m10, m.m11, m.m12, m.m20, m.m21, m.m22]

/-- `convervirial` (deep2nep.py lines 39-48): reads the entries
`vxx=M[0,0]`, `vxy=M[0,1]`, `vzx=M[0,2]`, `vyy=M[1,1]`, `vyz=M[1,2]`,
`vzz=M[2,2]` and returns `[vxx, vyy, vzz, vxy, vyz, vzx]`. -/
def convervirial (invirial : Mat3) : List ℤ :=
  [invirial.m00, invirial.m11, invirial.m22, invirial.m01, invirial.m12,
   invirial.m02]

/-- `np.cross` of two 3-vectors given as lists. -/
def cross3 (a b : List ℤ) : List ℤ :=
  [a.getD 1 0 * b.getD 2 0 - a.getD 2 0 * b.getD 1 0,
   a.getD 2 0 * b.getD 0 0 - a.getD 0 0 * b.getD 2 0,
   a.getD 0 0 * b.getD 1 0 - a.getD 1 0 * b.getD 0 0]

/-- `np.dot` of two 3-vectors given as lists. -/
def dot3 (a b : List ℤ) : ℤ := (List.zipWith (fun p q => p * q) a b).sum

/-- `vec2volume` (deep2nep.py lines 50-54): slices the flattened cell into
`va = cells[:3]`, `vb = cells[3:6]`, `vc = cells[6:]` and returns
`np.dot(va, np.cross(vb, vc))`. -/
def vec2volume (cells : List ℤ) : ℤ :=
  dot3 (cells.take 3) (cross3 ((cells.drop 3).take 3) (cells.drop 6))

/-- Split a flat array into 3×3 blocks; `none` when the length is not a
multiple of 9 (`np.reshape(..., [-1,3,3])` failure). -/
def chunk9 : List ℤ → Option (List Mat3)
  | [] => some []
  | a :: b :: c :: d :: e :: f :: g :: h :: i :: rest =>
    (chunk9 rest).map (fun ms => ⟨a, b, c, d, e, f, g, h, i⟩ :: ms)
  | _ => none

/-- Split a flat array into rows of 3; `none` when the length is not a
multiple of 3. -/
def chunk3 : List ℤ → Option (List Vec3)
  | [] => some []
  | a :: b :: c :: rest => (chunk3 rest).map (fun vs => ⟨a, b, c⟩ :: vs)
  | _ => none

/-- Split `rows` into `nframes` equal frames; `none` when `nframes = 0`
(numpy cannot infer the `-1` dimension) or when `nframes` does not divide
the row count. -/
def splitFrames (nframes : ℕ) (rows : List Vec3) : Option (List (List Vec3)) :=
  if nframes = 0 then none
  else if rows.length % nframes ≠ 0 then none
  else
    some ((List.range nframes).map
      (fun i => (rows.drop (i * (rows.length / nframes))).take
        (rows.length / nframes)))

/-- `np.reshape(flat, [nframes, -1, 3])`. -/
def reshapeF3 (nframes : ℕ) (flat : List ℤ) : Option (List (List Vec3)) :=
  (chunk3 flat).bind (splitFrames nframes)

/-- `np.reshape(flat, [nframes, 3, 3])`: exact element count required. -/
def reshapeMat3Exact (nframes : ℕ) (flat : List ℤ) : Option (List Mat3) :=
  (chunk9 flat).bind (fun ms => if ms.length = nframes then some ms else none)

/-- Contents of one `set.*` subdirectory: the five arrays `load_set`
(deep2nep.py lines 89-95) returns, flat in row-major order; `none` models a
missing optional file (`cond_load_data`). -/
structure SetDir where
  box : List ℤ
  coord : List ℤ
  energy : Option (List ℤ)
  force : Option (List ℤ)
  virial : Option (List ℤ)
deriving DecidableEq, Inhabited

/-- Contents of one system directory. `sets` holds the `set.*`
subdirectories in the lexicographically sorted name order produced by
`sorted(glob(os.path.join(folder, 'set.*')))`. -/
structure SysDir where
  type_raw : List ℕ
  type_map_raw : Option (List String)
  nopbc : Bool
  sets : List SetDir
deriving DecidableEq, Inhabited

/-- Result of `load_type`: the `atom_types` / `atom_numbs` / `atom_names`
entries (deep2nep.py lines 62-87). -/
structure TypeData where
  atom_types : List ℕ
  atom_numbs : List ℕ
  atom_names : List String
deriving DecidableEq, Inhabited

/-- `ntypes = np.max(atom_types) + 1` (type indices are non-negative). -/
def ntypesOf (tr : List ℕ) : ℕ := tr.foldl max 0 + 1

/-- `atom_numbs[ii] = np.count_nonzero(atom_types == ii)` for
`ii in range(ntypes)`. -/
def atom_numbsOf (tr : List ℕ) : List ℕ :=
  (List.range (ntypesOf tr)).map (fun ii => tr.countP (fun t => t == ii))

/-- The `my_type_map` resolution of `load_type`: the tokens of
`type_map.raw` when the file exists, else the caller's `type_map` argument,
else the synthesized names `Type_0, Type_1, ...` (one per type index). -/
def resolveTypeMap (d : SysDir) (type_map : Option (List String)) : List String :=
  match d.type_map_raw with
  | some toks => toks
  | none =>
    match type_map with
    | some l => l
    | none =>
      (List.range (ntypesOf d.type_raw)).map (fun ii => "Type_" ++ natRepr ii)

/-- `load_type` (deep2nep.py lines 62-87). `np.max` of the empty
`atom_types` array raises; the `assert` fails when the resolved name list
is shorter than `atom_numbs`; otherwise `atom_names` gets the first
`len(atom_numbs)` resolved names. -/
def load_type (d : SysDir) (type_map : Option (List String)) :
    Except String TypeData :=
  if d.type_raw.isEmpty then
    .error "ValueError: zero-size array to reduction operation maximum"
  else if (resolveTypeMap d type_map).length < (atom_numbsOf d.type_raw).length
    then .error "AssertionError"
  else
    .ok ⟨d.type_raw, atom_numbsOf d.type_raw,
      (resolveTypeMap d type_map).take (atom_numbsOf d.type_raw).length⟩

/-- Per-set reshaped data: the arrays appended to `all_cells`,
`all_coords`, `all_eners`, `all_forces`, `all_virs` for one `set.*`
directory (deep2nep.py lines 109-120), plus that set's `nframes`. -/
structure SetFrames where
  nframes : ℕ
  cells : List Mat3
  coords : List (List Vec3)
  eners : Option (List ℤ)
  forces : Option (List (List Vec3))
  virs : Option (List Mat3)
deriving DecidableEq, Inhabited

/-- Lines 113-116: a present `energy` array is reshaped to `[nframes]`
(failing when its length differs) and contributed only when non-empty. -/
def reshapeEnergy (nframes : ℕ) : Option (List ℤ) → Except String (Option (List ℤ))
  | none => .ok none
  | some e =>
    if e.length = nframes then .ok (if 0 < e.length then some e else none)
    else .error "ValueError: cannot reshape energy into (nframes)"

/-- Lines 117-118: a present, non-empty `force` array is reshaped to
`[nframes, -1, 3]`; an empty one is skipped before any reshape. -/
def reshapeForce (nframes : ℕ) : Option (List ℤ) → Except String (Option (List (List Vec3)))
  | none => .ok none
  | some f =>
    if f.length = 0 then .ok none
    else
      match reshapeF3 nframes f with
      | some fr => .ok (some fr)
      | none => .error "ValueError: cannot reshape force into (nframes,-1,3)"

/-- Lines 119-120: a present, non-empty `virial` array is reshaped to
`[nframes, 3, 3]`. -/
def reshapeVirial (nframes : ℕ) : Option (List ℤ) → Except String (Option (List Mat3))
  | none => .ok none
  | some v =>
    if v.length = 0 then .ok none
    else
      match reshapeMat3Exact nframes v with
      | some ms => .ok (some ms)
      | none => .error "ValueError: cannot reshape virial into (nframes,3,3)"

/-- Line 110-111: `np.reshape(cells, [-1,3,3])`, whose first dimension
defines `nframes`. -/
def reshapeCells (box : List ℤ) : Except String (List Mat3) :=
  match chunk9 box with
  | some cells => .ok cells
  | none => .error "ValueError: cannot reshape box into (-1,3,3)"

/-- Line 112: `np.reshape(coords, [nframes,-1,3])`. -/
def reshapeCoords (nframes : ℕ) (coord : List ℤ) :
    Except String (List (List Vec3)) :=
  match reshapeF3 nframes coord with
  | some cs => .ok cs
  | none => .error "ValueError: cannot reshape coord into (nframes,-1,3)"

/-- The body of the per-set loop of `to_system_data` (deep2nep.py lines
109-120): derive `nframes` from the box array and reshape every present
array. -/
def reshapeSet (sd : SetDir) : Except String SetFrames := do
  let cells ← reshapeCells sd.box
  let nframes := cells.length
  let coords ← reshapeCoords nframes sd.coord
  let eners ← reshapeEnergy nframes sd.energy
  let forces ← reshapeForce nframes sd.force
  let virs ← reshapeVirial nframes sd.virial
  Except.ok ⟨nframes, cells, coords, eners, forces, virs⟩

/-- Error-propagating map, modeling a Python loop whose body may raise. -/
def mapE (f : α → Except String β) : List α → Except String (List β)
  | [] => .ok []
  | a :: l =>
    match f a with
    | .error e => .error e
    | .ok b =>
      match mapE f l with
      | .error e => .error e
      | .ok bs => .ok (b :: bs)

/-- Atom count of the first frame of a per-set frame list (the trailing
dimension `np.concatenate` compares; within one set every frame has the
same width by construction of `reshapeF3`). -/
def frameWidth (l : List (List Vec3)) : ℕ := (l.headD []).length

/-- `np.concatenate(axis=0)` on `[F_k, N_k, 3]` arrays: all trailing
dimensions `N_k` must agree. -/
def concatSameWidth (ls : List (List (List Vec3))) :
    Except String (List (List Vec3)) :=
  match ls with
  | [] => .error "ValueError: need at least one array to concatenate"
  | l0 :: rest =>
    if rest.all (fun l => frameWidth l == frameWidth l0) then .ok ls.flatten
    else .error "ValueError: concatenate dimension mismatch"

/-- Lines 126-127: the `forces` key is set to the concatenation of the
contributed per-set force arrays only when at least one set contributed. -/
def concatForces (all_forces : List (List (List Vec3))) :
    Except String (Option (List (List Vec3))) :=
  if all_forces.isEmpty then Except.ok none
  else (concatSameWidth all_forces).map some

/-- The system record built by `to_system_data` (deep2nep.py lines
97-132). `frames` is assigned after the set loop from the loop variable
`nframes`, i.e. it is the frame count of the last (lexicographically
greatest) set; the optional keys `energies`/`forces`/`virials` are present
iff at least one set contributed. -/
structure SystemData where
  atom_types : List ℕ
  atom_numbs : List ℕ
  atom_names : List String
  orig : List ℤ
  docname : String
  frames : ℕ
  cells : List Mat3
  coords : List (List Vec3)
  energies : Option (List ℤ)
  forces : Option (List (List Vec3))
  virials : Option (List Mat3)
  nopbc : Bool
deriving DecidableEq, Inhabited

/-- `to_system_data` (deep2nep.py lines 97-132). An empty `sets` list makes
the post-loop code fail (the loop variable `nframes` is never bound and
`np.concatenate` rejects an empty list). -/
def to_system_data (folder : String) (d : SysDir) : Except String SystemData := do
  let td ← load_type d none
  let setsData ← mapE reshapeSet d.sets
  match setsData with
  | [] => Except.error "NameError: name nframes is not defined"
  | s0 :: srest => do
    let sd := s0 :: srest
    let frames := (sd.map SetFrames.nframes).getLastD 0
    let cells := (sd.map SetFrames.cells).flatten
    let coords ← concatSameWidth (sd.map SetFrames.coords)
    let all_eners := sd.filterMap SetFrames.eners
    let all_forces := sd.filterMap SetFrames.forces
    let all_virs := sd.filterMap SetFrames.virs
    let energies := if all_eners.isEmpty then none else some all_eners.flatten
    let forces ← concatForces all_forces
    let virials := if all_virs.isEmpty then none else some all_virs.flatten
    Except.ok { atom_types := td.atom_types, atom_numbs := td.atom_numbs,
                atom_names := td.atom_names, orig := [0, 0, 0],
                docname := folder, frames := frames, cells := cells,
                coords := coords, energies := energies, forces := forces,
                virials := virials, nopbc := d.nopbc }

/-- The per-system `has_virial` derivation of `read_multi_deepmd`
(deep2nep.py lines 141-145): `np.ones(frames)` when the `virials` key is
present and its concatenated length equals `frames`, else
`np.zeros(frames)`. -/
def hasVirialSeq (idata : SystemData) : List Bool :=
  match idata.virials with
  | some vs =>
    if vs.length = idata.frames then List.replicate idata.frames true
    else List.replicate idata.frames false
  | none => List.replicate idata.frames false

/-- Length of the concatenated virial sequence of a system (0 when the
`virials` key is absent). -/
def concatVirialLen (idata : SystemData) : ℕ :=
  match idata.virials with
  | some vs => vs.length
  | none => 0

/-- One frame of the merged collection: the values
`read_multi_deepmd` writes at global index `ifr` (deep2nep.py lines
172-184). -/
structure MergedFrame where
  atom_numbs : ℕ
  has_virial : Bool
  energy : ℤ
  virial : List ℤ
  cell : List ℤ
  volume : ℤ
  atom_types : List ℕ
  coords : List Vec3
  forces : List Vec3
  docname : String
deriving DecidableEq, Inhabited

/-- The merged collection: `nframe` as computed by `np.sum`, and the
frame-indexed fields. The source preallocates arrays of length `nframe`
and fills index `ifr` exactly once, with `ifr` increasing by 1 from 0;
this single-write in-order fill is modeled as the list `frames`. -/
structure MergedData where
  nframe : ℕ
  frames : List MergedFrame
deriving DecidableEq, Inhabited

/-- Read a dictionary key that may be absent (Python `KeyError`). -/
def getKey (o : Option α) (key : String) : Except String α :=
  match o with
  | some a => .ok a
  | none => .error ("KeyError: " ++ key)

/-- Index into an array (Python `IndexError` when out of bounds). -/
def getIdx (l : List α) (i : ℕ) : Except String α :=
  match l[i]? with
  | some a => .ok a
  | none => .error "IndexError: index out of bounds"

/-- The loop body of the merge (deep2nep.py lines 172-184) for system
`idata` and local frame `j`: reads `energies` and `forces`
unconditionally, converts the virial through `convervirial` only when the
frame's `has_virial` flag is set (the preallocated zero row survives
otherwise), flattens the cell and derives the volume. `virialRowOf` is the
conditional of lines 176-177: the 6-vector written at `ifr`, either the
Voigt reduction or the untouched zero row. -/
def virialRowOf (idata : SystemData) (j : ℕ) (hv : Bool) :
    Except String (List ℤ) :=
  if hv then do
    let vs ← getKey idata.virials "virials"
    let m ← getIdx vs j
    Except.ok (convervirial m)
  else Except.ok (List.replicate 6 0)

def mergeFrame (idata : SystemData) (j : ℕ) : Except String MergedFrame := do
  let ens ← getKey idata.energies "energies"
  let e ← getIdx ens j
  let hv := (hasVirialSeq idata).getD j false
  let vir ← virialRowOf idata j hv
  let cm ← getIdx idata.cells j
  let c9 := mat3Flat cm
  let co ← getIdx idata.coords j
  let fs ← getKey idata.forces "forces"
  let fj ← getIdx fs j
  Except.ok { atom_numbs := idata.atom_types.length, has_virial := hv,
              energy := e, virial := vir, cell := c9,
              volume := vec2volume c9, atom_types := idata.atom_types,
              coords := co, forces := fj, docname := idata.docname }

/-- A directory entry of the input parent directory, as seen by
`os.listdir` + `os.path.isdir`. -/
inductive DirEntry where
  | file (name : String)
  | dir (name : String) (contents : SysDir)
deriving DecidableEq, Inhabited

/-- The system subdirectories of the parent directory, in listing order
(the `os.path.isdir` filter of deep2nep.py lines 137-138). -/
def subdirsOf (entries : List DirEntry) : List (String × SysDir) :=
  entries.filterMap (fun e =>
    match e with
    | .dir name d => some (name, d)
    | .file _ => none)

/-- The error raised on an empty `data_multi`: `np.sum` of an empty list is
the float `0.0`, which `range` (line 153) rejects. -/
def emptyRangeError : String :=
  "TypeError: a numpy float cannot be interpreted as an integer"

/-- `read_multi_deepmd` (deep2nep.py lines 134-186): aggregate every
system subdirectory, then fill the merged collection system by system,
frame by frame, with a strictly increasing global index. -/
def read_multi_deepmd (entries : List DirEntry) : Except String MergedData := do
  let data_multi ← mapE (fun nd => to_system_data nd.1 nd.2) (subdirsOf entries)
  match data_multi with
  | [] => Except.error emptyRangeError
  | _ => do
    let nframe := (data_multi.map SystemData.frames).sum
    let framess ← mapE
      (fun idata => mapE (mergeFrame idata) (List.range idata.frames))
      data_multi
    Except.ok ⟨nframe, framess.flatten⟩

/-- Concatenation of the pieces successively added to `outstr` by `+`
and `+=` in `dump`. -/
def strJoin (l : List String) : String := ⟨(l.map String.data).flatten⟩

/-- The energy line of one body record (deep2nep.py lines 216-221): the
energy alone, or the energy followed by the six virial components when the
frame's `has_virial` flag is set. -/
def energyLine (fr : MergedFrame) : String :=
  if fr.has_virial then intRepr fr.energy ++ " " ++ joinSp (fr.virial.map intRepr)
  else intRepr fr.energy

/-- The flattened-cell line of one body record (line 222). -/
def cellLine (fr : MergedFrame) : String := joinSp (fr.cell.map intRepr)

/-- `' '.join(map(str, v))` for one atom row. -/
def vec3Str (v : Vec3) : String := joinSp [intRepr v.x, intRepr v.y, intRepr v.z]

/-- One atom line of the body (deep2nep.py lines 223-226): the 1-based
type index (`atom_types[i][j] + 1`), the three coordinates and the three
force components. -/
def atomLine (fr : MergedFrame) (j : ℕ) : Except String String := do
  let t ← getIdx fr.atom_types j
  let co ← getIdx fr.coords j
  let fo ← getIdx fr.forces j
  Except.ok (natRepr (t + 1) ++ " " ++ vec3Str co ++ " " ++ vec3Str fo ++ "\n")

/-- One body record (lines 215-227): energy line, cell line, then one line
per atom. -/
def frameBody (fr : MergedFrame) : Except String String := do
  let atomLines ← mapE (atomLine fr) (List.range fr.atom_numbs)
  Except.ok (energyLine fr ++ "\n" ++ cellLine fr ++ "\n" ++ strJoin atomLines)

/-- One header line (line 212): `<atom_count> <has_virial(0|1)>`. -/
def headerLine (fr : MergedFrame) : String :=
  natRepr fr.atom_numbs ++ " " ++ natRepr (if fr.has_virial then 1 else 0) ++ "\n"

/-- `dump` (deep2nep.py lines 205-229): the full `train.in` text, a header
block (`nframe`, then one header line per frame) followed by one body
record per frame. Directory creation and file I/O are outside the model;
the result is the written text. -/
def dump (data : MergedData) : Except String String := do
  let headerLines ← mapE (fun i => (getIdx data.frames i).map headerLine)
    (List.range data.nframe)
  let bodies ← mapE (fun i => (getIdx data.frames i).bind frameBody)
    (List.range data.nframe)
  Except.ok (natRepr data.nframe ++ "\n" ++ strJoin headerLines ++
    strJoin bodies)

/-- `main` (deep2nep.py lines 232-238) as a data path: read the parent
directory, merge, serialize. -/
def mainConvert (entries : List DirEntry) : Except String String :=
  (read_multi_deepmd entries).bind dump

/-- Parse one `<atom_count> <has_virial>` header line. Modelled from the
spec: the round-trip re-parser of the header block (the serializer writes
the flag as `0`/`1`, re-read here as a Boolean). -/
def parsePairLine (cs : List Char) : Option (ℕ × Bool) :=
  match splitSp cs with
  | [a, b] =>
    (parseNatChars a).bind (fun n =>
      (parseNatChars b).map (fun h => (n, h == 1)))
  | _ => none

/-- Parse `n` header lines. Modelled from the spec: round-trip re-parser. -/
def parseHeaderLines : ℕ → List Char → Option (List (ℕ × Bool))
  | 0, _ => some []
  | n + 1, cs =>
    (parsePairLine (takeLine cs)).bind (fun p =>
      (parseHeaderLines n (dropLine cs)).map (fun ps => p :: ps))

/-- Parse the header block of a serialized collection: the first line as
the total frame count, then one `<atom_count> <has_virial>` line per
frame. Modelled from the spec's round-trip property. -/
def parseHeader (s : String) : Option (ℕ × List (ℕ × Bool)) :=
  (parseNatChars (takeLine s.data)).bind (fun n =>
    (parseHeaderLines n (dropLine s.data)).map (fun ps => (n, ps)))

theorem except_bind_ok {α β : Type} (x : Except String α) (f : α → Except String β)
    (b : β) : x.bind f = .ok b ↔ ∃ a, x = .ok a ∧ f a = .ok b := by
  cases x with
  | error e => simp [Except.bind]
  | ok a => simp [Except.bind]

theorem except_map_eq_bind {α β : Type} (f : α → β) (x : Except String α) :
    x.map f = x.bind (fun a => .ok (f a)) := by
  cases x <;> rfl

theorem getKey_ok {α : Type} (o : Option α) (k : String) (a : α) :
    getKey o k = .ok a ↔ o = some a := by
  cases o <;> simp [getKey]

theorem getIdx_ok {α : Type} (l : List α) (i : ℕ) (a : α) :
    getIdx l i = .ok a ↔ l[i]? = some a := by
  cases h : l[i]? <;> simp [getIdx, h]

theorem getIdx_cons_succ {α : Type} (a : α) (l : List α) (i : ℕ) :
    getIdx (a :: l) (i + 1) = getIdx l i := by
  simp [getIdx]

theorem mapE_nil {α β : Type} (f : α → Except String β) : mapE f [] = .ok [] := rfl

theorem mapE_cons_ok {α β : Type} (f : α → Except String β) (a : α) (l : List α)
    (l2 : List β) : mapE f (a :: l) = .ok l2 ↔
      ∃ b bs, f a = .ok b ∧ mapE f l = .ok bs ∧ l2 = b :: bs := by
  constructor
  · intro h
    unfold mapE at h
    cases hfa : f a with
    | error e => rw [hfa] at h; exact absurd h (by simp)
    | ok b =>
      rw [hfa] at h
      cases hml : mapE f l with
      | error e => rw [hml] at h; exact absurd h (by simp)
      | ok bs =>
        rw [hml] at h
        exact ⟨b, bs, rfl, rfl, by simpa using h.symm⟩
  · rintro ⟨b, bs, hb, hbs, rfl⟩
    unfold mapE
    rw [hb, hbs]

theorem mapE_ok_length {α β : Type} (f : α → Except String β) :
    ∀ (l : List α) (l2 : List β), mapE f l = .ok l2 → l2.length = l.length := by
  intro l
  induction l with
  | nil => intro l2 h; simp [mapE_nil] at h; simp [← h]
  | cons a l ih =>
    intro l2 h
    rcases (mapE_cons_ok f a l l2).mp h with ⟨b, bs, _, hbs, rfl⟩
    simp [ih bs hbs]

theorem mapE_ok_mem_left {α β : Type} (f : α → Except String β) :
    ∀ (l : List α) (l2 : List β), mapE f l = .ok l2 →
      ∀ a ∈ l, ∃ b ∈ l2, f a = .ok b := by
  intro l
  induction l with
  | nil => intro l2 _ a ha; simp at ha
  | cons x l ih =>
    intro l2 h a ha
    rcases (mapE_cons_ok f x l l2).mp h with ⟨b, bs, hb, hbs, rfl⟩
    rcases List.mem_cons.mp ha with rfl | ha2
    · exact ⟨b, by simp, hb⟩
    · rcases ih bs hbs a ha2 with ⟨b2, hmem, hfa⟩
      exact ⟨b2, by simp [hmem], hfa⟩

theorem mapE_ok_mem_right {α β : Type} (f : α → Except String β) :
    ∀ (l : List α) (l2 : List β), mapE f l = .ok l2 →
      ∀ b ∈ l2, ∃ a ∈ l, f a = .ok b := by
  intro l
  induction l with
  | nil => intro l2 h b hb; simp [mapE_nil] at h; subst h; simp at hb
  | cons x l ih =>
    intro l2 h b hb
    rcases (mapE_cons_ok f x l l2).mp h with ⟨b0, bs, hb0, hbs, rfl⟩
    rcases List.mem_cons.mp hb with rfl | hb2
    · exact ⟨x, by simp, hb0⟩
    · rcases ih bs hbs b hb2 with ⟨a, hmem, hfa⟩
      exact ⟨a, by simp [hmem], hfa⟩

theorem mapE_cons {α β : Type} (f : α → Except String β) (a : α) (l : List α) :
    mapE f (a :: l) =
      match f a with
      | .error e => .error e
      | .ok b =>
        match mapE f l with
        | .error e => .error e
        | .ok bs => .ok (b :: bs) := rfl

theorem mapE_map {α γ β : Type} (f : γ → Except String β) (g : α → γ) :
    ∀ l : List α, mapE f (l.map g) = mapE (fun a => f (g a)) l := by
  intro l
  induction l with
  | nil => rfl
  | cons a l ih => rw [List.map_cons, mapE_cons, mapE_cons, ih]

theorem mapE_pure_map {α β : Type} (g : α → β) :
    ∀ l : List α, mapE (fun a => Except.ok (g a)) l = .ok (l.map g) := by
  intro l
  induction l with
  | nil => rfl
  | cons a l ih => unfold mapE; rw [ih]; rfl

theorem mapE_range_bind {α β : Type} (g : α → Except String β) :
    ∀ l : List α,
      mapE (fun i => (getIdx l i).bind g) (List.range l.length) = mapE g l := by
  intro l
  induction l with
  | nil => rfl
  | cons a l ih =>
    have h0 : getIdx (a :: l) 0 = Except.ok a := by simp [getIdx]
    have hfun : (fun i => (getIdx (a :: l) (Nat.succ i)).bind g) =
        (fun i => (getIdx l i).bind g) := by
      funext i
      rw [show Nat.succ i = i + 1 from rfl, getIdx_cons_succ]
    rw [List.length_cons, List.range_succ_eq_map, mapE_cons, mapE_map, h0,
      hfun, ih, mapE_cons]
    rfl

theorem bind_ok_iff {α β : Type} {x : Except String α} {f : α → Except String β}
    {b : β} : (x >>= f) = .ok b ↔ ∃ a, x = .ok a ∧ f a = .ok b :=
  except_bind_ok x f b

theorem virialRowOf_false_ok {idata : SystemData} {j : ℕ} {v : List ℤ}
    (h : virialRowOf idata j false = .ok v) : v = List.replicate 6 0 := by
  unfold virialRowOf at h
  rw [if_neg (by simp)] at h
  exact ((Except.ok.injEq _ _).mp h).symm

theorem virialRowOf_true_ok {idata : SystemData} {j : ℕ} {v : List ℤ}
    (h : virialRowOf idata j true = .ok v) :
    ∃ vs m, idata.virials = some vs ∧ vs[j]? = some m ∧ v = convervirial m := by
  unfold virialRowOf at h
  rw [if_pos rfl] at h
  simp only [bind_ok_iff] at h
  obtain ⟨vs, hvs, m, hm, hv2⟩ := h
  rw [getKey_ok] at hvs
  rw [getIdx_ok] at hm
  exact ⟨vs, m, hvs, hm, ((Except.ok.injEq _ _).mp hv2).symm⟩

theorem mergeFrame_ok_spec {idata : SystemData} {j : ℕ} {fr : MergedFrame}
    (h : mergeFrame idata j = .ok fr) :
    (∃ ens e, idata.energies = some ens ∧ ens[j]? = some e ∧ fr.energy = e) ∧
    (∃ fs, idata.forces = some fs) ∧
    fr.has_virial = (hasVirialSeq idata).getD j false ∧
    (fr.has_virial = true →
      ∃ vs m, idata.virials = some vs ∧ vs[j]? = some m ∧
        fr.virial = convervirial m) ∧
    (fr.has_virial = false → fr.virial = List.replicate 6 0) ∧
    fr.atom_numbs = idata.atom_types.length ∧
    fr.docname = idata.docname ∧
    (∃ cm, idata.cells[j]? = some cm ∧ fr.cell = mat3Flat cm ∧
      fr.volume = vec2volume (mat3Flat cm)) := by
  unfold mergeFrame at h
  simp only [bind_ok_iff] at h
  obtain ⟨ens, hens, e, he, vir, hvir, cm, hcm, co, hco, fs, hfs, fj, hfj, hfr⟩ := h
  rw [getKey_ok] at hens hfs
  rw [getIdx_ok] at he hcm hco hfj
  have hfr2 := (Except.ok.injEq _ _).mp hfr
  subst hfr2
  refine ⟨⟨ens, e, hens, he, rfl⟩, ⟨fs, hfs⟩, rfl, ?_, ?_, rfl, rfl,
    ⟨cm, hcm, rfl, rfl⟩⟩
  · intro h2
    have h3 : (hasVirialSeq idata).getD j false = true := h2
    rw [h3] at hvir
    obtain ⟨vs, m, hvs, hm, hveq⟩ := virialRowOf_true_ok hvir
    exact ⟨vs, m, hvs, hm, hveq⟩
  · intro h2
    have h3 : (hasVirialSeq idata).getD j false = false := h2
    rw [h3] at hvir
    exact virialRowOf_false_ok hvir

theorem splitFrames_pos {nframes : ℕ} {rows : List Vec3}
    {x : List (List Vec3)} (h : splitFrames nframes rows = some x) :
    1 ≤ nframes := by
  unfold splitFrames at h
  by_cases h0 : nframes = 0
  · rw [if_pos h0] at h; exact absurd h (by simp)
  · omega

theorem reshapeSet_nframes_pos {sd : SetDir} {sf : SetFrames}
    (h : reshapeSet sd = .ok sf) : 1 ≤ sf.nframes := by
  unfold reshapeSet at h
  simp only [bind_ok_iff] at h
  obtain ⟨cells, hcells, coords, hcoords, eners, _, forces, _, virs, _, hfr⟩ := h
  have hfr2 := (Except.ok.injEq _ _).mp hfr
  subst hfr2
  show 1 ≤ cells.length
  unfold reshapeCoords at hcoords
  cases hrc : reshapeF3 cells.length sd.coord with
  | none => rw [hrc] at hcoords; exact absurd hcoords (by simp)
  | some cs =>
    unfold reshapeF3 at hrc
    rcases Option.bind_eq_some.mp hrc with ⟨rows, _, hsplit⟩
    exact splitFrames_pos hsplit

theorem getLastD_pos : ∀ (l : List ℕ) (d : ℕ), l ≠ [] → (∀ x ∈ l, 1 ≤ x) →
    1 ≤ l.getLastD d := by
  intro l
  induction l with
  | nil => intro d h; exact absurd rfl h
  | cons a l ih =>
    intro d _ hall
    cases l with
    | nil => simpa using hall a (by simp)
    | cons b l =>
      rw [List.getLastD_cons]
      exact ih a (by simp) (fun x hx => hall x (by simp [hx]))

theorem to_system_data_ok_sets {folder : String} {d : SysDir} {s : SystemData}
    (h : to_system_data folder d = .ok s) :
    ∃ setsData, mapE reshapeSet d.sets = .ok setsData ∧ setsData ≠ [] ∧
      s.frames = (setsData.map SetFrames.nframes).getLastD 0 ∧
      s.docname = folder := by
  unfold to_system_data at h
  simp only [bind_ok_iff] at h
  obtain ⟨td, htd, setsData, hsd, hrest⟩ := h
  cases setsData with
  | nil => exact absurd hrest (by simp)
  | cons s0 srest =>
    refine ⟨s0 :: srest, hsd, by simp, ?_⟩
    simp only [bind_ok_iff] at hrest
    obtain ⟨coords, hcoords, forces, hforces, hok⟩ := hrest
    have hs := (Except.ok.injEq _ _).mp hok
    subst hs
    exact ⟨rfl, rfl⟩

theorem to_system_data_frames_pos {folder : String} {d : SysDir}
    {s : SystemData} (h : to_system_data folder d = .ok s) : 1 ≤ s.frames := by
  obtain ⟨setsData, hsd, hne, hfr, _⟩ := to_system_data_ok_sets h
  rw [hfr]
  apply getLastD_pos _ _ (by simpa using hne)
  intro x hx
  rcases List.mem_map.mp hx with ⟨sf, hsf, rfl⟩
  rcases mapE_ok_mem_right reshapeSet d.sets setsData hsd sf hsf with ⟨sd2, _, hok⟩
  exact reshapeSet_nframes_pos hok

theorem subdirsOf_mem {entries : List DirEntry} {name : String} {d : SysDir}
    (h : DirEntry.dir name d ∈ entries) : (name, d) ∈ subdirsOf entries := by
  unfold subdirsOf
  exact List.mem_filterMap.mpr ⟨DirEntry.dir name d, h, rfl⟩

theorem strJoin_data (l : List String) :
    (strJoin l).data = (l.map String.data).flatten := rfl

theorem dump_ok_spec {d : MergedData} {out : String}
    (hlen : d.nframe = d.frames.length) (h : dump d = .ok out) :
    ∃ bodies, out = natRepr d.nframe ++ "\n" ++
      strJoin (d.frames.map headerLine) ++ strJoin bodies := by
  unfold dump at h
  simp only [bind_ok_iff] at h
  obtain ⟨headerLines, hhl, bodies, hb, hout⟩ := h
  have hmap : mapE (fun i => (getIdx d.frames i).map headerLine)
      (List.range d.nframe) = .ok (d.frames.map headerLine) := by
    rw [hlen]
    have hfn : (fun i => (getIdx d.frames i).map headerLine) =
        (fun i => (getIdx d.frames i).bind (fun fr => Except.ok (headerLine fr))) := by
      funext i; rw [except_map_eq_bind]
    rw [hfn, mapE_range_bind, mapE_pure_map]
  rw [hmap] at hhl
  have hhl2 := (Except.ok.injEq _ _).mp hhl
  subst hhl2
  exact ⟨bodies, ((Except.ok.injEq _ _).mp hout).symm⟩

/-- The characters of one header line before its newline. -/
def headerLineCore (fr : MergedFrame) : List Char :=
  natReprChars fr.atom_numbs ++ ' ' ::
    natReprChars (if fr.has_virial then 1 else 0)

theorem headerLine_data (fr : MergedFrame) :
    (headerLine fr).data = headerLineCore fr ++ ['\n'] := by
  unfold headerLine headerLineCore natRepr
  rw [String.data_append, String.data_append, String.data_append]
  simp [show (" " : String).data = [' '] from rfl,
    show ("\n" : String).data = ['\n'] from rfl]

theorem headerLineCore_no_newline (fr : MergedFrame) :
    ∀ c ∈ headerLineCore fr, c ≠ '\n' := by
  intro c hc
  unfold headerLineCore at hc
  rcases List.mem_append.mp hc with h | h
  · exact (natReprChars_no_space h).2
  · rcases List.mem_cons.mp h with rfl | h2
    · decide
    · exact (natReprChars_no_space h2).2

theorem parsePairLine_core (fr : MergedFrame) :
    parsePairLine (headerLineCore fr) = some (fr.atom_numbs, fr.has_virial) := by
  unfold parsePairLine headerLineCore
  rw [splitSp_append _ _ (fun c hc => (natReprChars_no_space hc).1),
    splitSp_no_space _ (fun c hc => (natReprChars_no_space hc).1)]
  rw [show (∀ a b : List Char, (match [a, b] with
      | [a2, b2] =>
        (parseNatChars a2).bind (fun n =>
          (parseNatChars b2).map (fun h => (n, h == 1)))
      | _ => none) =
      (parseNatChars a).bind (fun n =>
        (parseNatChars b).map (fun h => (n, h == 1)))) from fun a b => rfl]
  rw [parseNatChars_natReprChars, parseNatChars_natReprChars]
  cases fr.has_virial <;> rfl

theorem parseHeaderLines_block :
    ∀ (frames : List MergedFrame) (tail : List Char),
      parseHeaderLines frames.length
        ((strJoin (frames.map headerLine)).data ++ tail) =
        some (frames.map (fun fr => (fr.atom_numbs, fr.has_virial))) := by
  intro frames
  induction frames with
  | nil => intro tail; rfl
  | cons fr rest ih =>
    intro tail
    have hdata : (strJoin ((fr :: rest).map headerLine)).data =
        (headerLine fr).data ++ (strJoin (rest.map headerLine)).data := by
      simp [strJoin_data]
    have hassoc : (strJoin ((fr :: rest).map headerLine)).data ++ tail =
        headerLineCore fr ++
          '\n' :: ((strJoin (rest.map headerLine)).data ++ tail) := by
      rw [hdata, headerLine_data]
      simp
    rw [List.length_cons]
    simp only [parseHeaderLines]
    rw [hassoc,
      takeLine_append _ _ (headerLineCore_no_newline fr),
      dropLine_append _ _ (headerLineCore_no_newline fr),
      parsePairLine_core, ih]
    rfl

theorem merged_blocks_spec :
    ∀ (dm : List SystemData) (fss : List (List MergedFrame)),
      mapE (fun idata => mapE (mergeFrame idata) (List.range idata.frames)) dm
        = .ok fss →
      fss.map List.length = dm.map SystemData.frames ∧
      fss.flatten.map MergedFrame.docname =
        (dm.map (fun s => List.replicate s.frames s.docname)).flatten := by
  intro dm
  induction dm with
  | nil =>
    intro fss h
    have h2 := (Except.ok.injEq _ _).mp h
    subst h2
    exact ⟨rfl, rfl⟩
  | cons s dm ih =>
    intro fss h
    rcases (mapE_cons_ok _ s dm fss).mp h with ⟨fl, fls, hfl, hfls, rfl⟩
    have hlen : fl.length = s.frames := by
      have hl := mapE_ok_length _ _ _ hfl
      rwa [List.length_range] at hl
    have hdoc : fl.map MergedFrame.docname = List.replicate s.frames s.docname := by
      rw [List.eq_replicate_iff]
      refine ⟨by simp [hlen], ?_⟩
      intro b hb
      rcases List.mem_map.mp hb with ⟨fr, hfr, rfl⟩
      rcases mapE_ok_mem_right _ _ _ hfl fr hfr with ⟨jj, _, hok⟩
      exact (mergeFrame_ok_spec hok).2.2.2.2.2.2.1
    obtain ⟨ih1, ih2⟩ := ih fls hfls
    constructor
    · simp [hlen, ih1]
    · simp only [List.map_cons, List.flatten_cons, List.map_append, ih2, hdoc]

/-- C2: `convervirial` maps a 3×3 virial matrix `M` to the 6-vector
`[M[0,0], M[1,1], M[2,2], M[0,1], M[1,2], M[0,2]]`, i.e. the Voigt order
`[xx, yy, zz, xy, yz, zx]` with the off-diagonal components taken from the
upper triangle. -/
theorem claim_C2_convervirial_voigt (M : Mat3) :
    convervirial M = [mat3Entry M 0 0, mat3Entry M 1 1, mat3Entry M 2 2,
      mat3Entry M 0 1, mat3Entry M 1 2, mat3Entry M 0 2] := by
  cases M
  rfl

/-- Modelled from the spec: the scalar triple product `a · (b × c)` of
three row vectors. -/
def tripleProductSpec (a b c : Vec3) : ℤ :=
  a.x * (b.y * c.z - b.z * c.y) + a.y * (b.z * c.x - b.x * c.z) +
    a.z * (b.x * c.y - b.y * c.x)

/-- C5: on a flattened 9-component cell, `vec2volume` computes the scalar
triple product `a · (b × c)` of the three row vectors `a = c[0:3]`,
`b = c[3:6]`, `c = c[6:9]`; the flattened identity cell has volume 1. -/
theorem claim_C5_vec2volume_triple_product (a1 a2 a3 b1 b2 b3 c1 c2 c3 : ℤ) :
    vec2volume [a1, a2, a3, b1, b2, b3, c1, c2, c3] =
      tripleProductSpec ⟨a1, a2, a3⟩ ⟨b1, b2, b3⟩ ⟨c1, c2, c3⟩ ∧
    vec2volume [1, 0, 0, 0, 1, 0, 0, 0, 1] = 1 := by
  refine ⟨?_, by decide⟩
  show dot3 [a1, a2, a3] (cross3 [b1, b2, b3] [c1, c2, c3]) = _
  show a1 * (b2 * c3 - b3 * c2) + (a2 * (b3 * c1 - b1 * c3) +
    (a3 * (b1 * c2 - b2 * c1) + 0)) = _
  unfold tripleProductSpec
  ring

/-- C3: for every system record, the derived per-frame `has_virial`
sequence is the constant sequence whose value says whether the
concatenated virial sequence's length equals the system's stored frame
count (in particular all-false when the `virials` key is absent), so no
system has mixed per-frame `has_virial` values. -/
theorem claim_C3_hasVirial_uniform (idata : SystemData) :
    hasVirialSeq idata =
      List.replicate idata.frames (concatVirialLen idata == idata.frames) ∧
    ((hasVirialSeq idata).all (fun b => b == true) = true ∨
      (hasVirialSeq idata).all (fun b => b == false) = true) := by
  have h1 : hasVirialSeq idata =
      List.replicate idata.frames (concatVirialLen idata == idata.frames) := by
    unfold hasVirialSeq concatVirialLen
    cases hv : idata.virials with
    | some vs =>
      show (if vs.length = idata.frames then List.replicate idata.frames true
        else List.replicate idata.frames false) =
        List.replicate idata.frames (vs.length == idata.frames)
      by_cases he : vs.length = idata.frames
      · rw [if_pos he, he]
        simp
      · rw [if_neg he]
        have hbe : (vs.length == idata.frames) = false := by
          simpa using he
        rw [hbe]
    | none =>
      show List.replicate idata.frames false =
        List.replicate idata.frames ((0 : ℕ) == idata.frames)
      cases hf : idata.frames with
      | zero => rfl
      | succ n =>
        have hbe : ((0 : ℕ) == n + 1) = false := by simp
        rw [hbe]
  refine ⟨h1, ?_⟩
  rw [h1]
  cases hb : (concatVirialLen idata == idata.frames) with
  | true =>
    left
    simp [List.all_eq_true, List.mem_replicate]
  | false =>
    right
    simp [List.all_eq_true, List.mem_replicate]

/-- C6: the Type/Topology Loader resolves the name list preferring the
`type_map.raw` tokens, else the caller-provided list, else synthesized
names `Type_0 .. Type_{ntypes-1}` whose count equals `len(atom_numbs)`;
given a non-empty `type.raw` it fails iff the resolved list is shorter
than `atom_numbs`, and on success `atom_names` is exactly the prefix of
the resolved list of length `len(atom_numbs)`. -/
theorem claim_C6_load_type_names (d : SysDir) (tm : Option (List String))
    (hne : d.type_raw ≠ []) :
    ((load_type d tm).isOk = true ↔
      (atom_numbsOf d.type_raw).length ≤ (resolveTypeMap d tm).length) ∧
    (∀ td, load_type d tm = .ok td →
      td.atom_names =
        (resolveTypeMap d tm).take (atom_numbsOf d.type_raw).length) ∧
    (d.type_map_raw = none → tm = none →
      resolveTypeMap d tm =
        (List.range (ntypesOf d.type_raw)).map
          (fun ii => "Type_" ++ natRepr ii) ∧
      (resolveTypeMap d tm).length = (atom_numbsOf d.type_raw).length) := by
  have hie : d.type_raw.isEmpty = false := by
    simpa [List.isEmpty_iff] using hne
  refine ⟨?_, ?_, ?_⟩
  · unfold load_type
    rw [hie]
    rw [if_neg (by simp)]
    by_cases hlt : (resolveTypeMap d tm).length < (atom_numbsOf d.type_raw).length
    · rw [if_pos hlt]
      simp [Except.isOk, Except.toBool]
      omega
    · rw [if_neg hlt]
      simp [Except.isOk, Except.toBool]
      omega
  · intro td htd
    unfold load_type at htd
    rw [hie, if_neg (by simp)] at htd
    by_cases hlt : (resolveTypeMap d tm).length < (atom_numbsOf d.type_raw).length
    · rw [if_pos hlt] at htd
      exact absurd htd (by simp)
    · rw [if_neg hlt] at htd
      have h2 := (Except.ok.injEq _ _).mp htd
      rw [← h2]
  · intro hmap htm
    have hres : resolveTypeMap d tm =
        (List.range (ntypesOf d.type_raw)).map
          (fun ii => "Type_" ++ natRepr ii) := by
      unfold resolveTypeMap
      rw [hmap, htm]
    refine ⟨hres, ?_⟩
    rw [hres, List.length_map, List.length_range]
    unfold atom_numbsOf
    rw [List.length_map, List.length_range]

/-- A system directory without `type_map.raw`, used to instantiate the C6
theorem. -/
def exTypeDir : SysDir :=
  { type_raw := [0, 1, 1], type_map_raw := none, nopbc := false, sets := [] }

/-- C6 witness: instantiating the loader specification at a concrete
directory whose resolved names are the synthesized ones. -/
theorem claim_C6_witness : (load_type exTypeDir none).isOk = true :=
  (claim_C6_load_type_names exTypeDir none (by decide)).1.mpr (by decide)

/-- C9: on a parent directory with zero system subdirectories the merge
raises an error (`np.sum` of the empty per-system frame-count list is a
numpy float, which `range` rejects) instead of silently producing an
empty or malformed output: the merger and the whole pipeline return the
error and no output text exists. -/
theorem claim_C9_empty_input_error (entries : List DirEntry)
    (h : subdirsOf entries = []) :
    read_multi_deepmd entries = .error emptyRangeError ∧
    mainConvert entries = .error emptyRangeError := by
  have h1 : read_multi_deepmd entries = .error emptyRangeError := by
    unfold read_multi_deepmd
    rw [h]
    rfl
  refine ⟨h1, ?_⟩
  unfold mainConvert
  rw [h1]
  rfl

/-- C9 witness: a parent directory holding one plain file and no
subdirectory. -/
theorem claim_C9_witness :
    read_multi_deepmd [DirEntry.file "README"] = .error emptyRangeError ∧
    mainConvert [DirEntry.file "README"] = .error emptyRangeError :=
  claim_C9_empty_input_error [DirEntry.file "README"] rfl

/-- C7: on every serialized atom line, the leading space-separated token
is the decimal rendering of the frame's 0-based `atom_types` value plus
one (the 1-based type index). -/
theorem claim_C7_atom_line_type_index (fr : MergedFrame) (j t : ℕ)
    (line : String) (ht : fr.atom_types[j]? = some t)
    (h : atomLine fr j = .ok line) :
    parseNatChars ((splitSp line.data).headD []) = some (t + 1) := by
  unfold atomLine at h
  simp only [bind_ok_iff] at h
  obtain ⟨t2, ht2, co, hco, fo, hfo, hline⟩ := h
  rw [getIdx_ok] at ht2
  rw [ht] at ht2
  have ht3 : t2 = t := by
    have := (Option.some.injEq _ _).mp ht2.symm
    omega
  subst ht3
  have hl := (Except.ok.injEq _ _).mp hline
  have hdata : line.data = natReprChars (t2 + 1) ++
      ' ' :: ((vec3Str co).data ++ ' ' :: ((vec3Str fo).data ++ ['\n'])) := by
    rw [← hl]
    simp only [String.data_append, natRepr,
      show (" " : String).data = [' '] from rfl,
      show ("\n" : String).data = ['\n'] from rfl, List.append_assoc]
    rfl
  rw [hdata, splitSp_append _ _ (fun c hc => (natReprChars_no_space hc).1)]
  rw [List.headD_cons]
  exact parseNatChars_natReprChars (t2 + 1)

/-- A concrete merged frame with 0-based atom type 4, to instantiate C7. -/
def exFrame : MergedFrame :=
  { atom_numbs := 1, has_virial := false, energy := 2,
    virial := List.replicate 6 0, cell := [1, 0, 0, 0, 1, 0, 0, 0, 1],
    volume := 1, atom_types := [4], coords := [⟨0, 0, 0⟩],
    forces := [⟨0, 0, 0⟩], docname := "sys" }

/-- C7 witness: the atom line of `exFrame` starts with token `5 = 4 + 1`. -/
theorem claim_C7_witness :
    parseNatChars
      ((splitSp ((atomLine exFrame 0).toOption.getD "").data).headD []) =
      some 5 :=
  claim_C7_atom_line_type_index exFrame 0 4
    ((atomLine exFrame 0).toOption.getD "") rfl rfl

/-- C8: for every frame the merge produces, the 6-component virial vector
is the Voigt reduction `convervirial` of the origin system's 3×3 virial
when `has_virial` is set and stays the preallocated all-zero row
otherwise; correspondingly the serialized energy line tokenizes to the
energy followed by the six virial values iff `has_virial`, and to the
energy alone otherwise. -/
theorem claim_C8_virial_energy_line (idata : SystemData) (j : ℕ)
    (fr : MergedFrame) (h : mergeFrame idata j = .ok fr) :
    (fr.has_virial = true →
      ∃ vs m, idata.virials = some vs ∧ vs[j]? = some m ∧
        fr.virial = convervirial m) ∧
    (fr.has_virial = false → fr.virial = List.replicate 6 0) ∧
    splitSp (energyLine fr).data =
      (if fr.has_virial then
        (intRepr fr.energy).data :: fr.virial.map (fun q => (intRepr q).data)
      else [(intRepr fr.energy).data]) := by
  obtain ⟨_, _, _, h4, h5, _, _, _⟩ := mergeFrame_ok_spec h
  refine ⟨h4, h5, ?_⟩
  have hvlen : fr.virial.length = 6 := by
    cases hb : fr.has_virial with
    | false => rw [h5 hb]; rfl
    | true =>
      obtain ⟨vs, m, _, _, hv⟩ := h4 hb
      rw [hv]
      rfl
  unfold energyLine
  cases hb : fr.has_virial with
  | false =>
    rw [if_neg (by simp), if_neg (by simp)]
    exact splitSp_no_space _ (fun c hc => (intRepr_no_space hc).1)
  | true =>
    rw [if_pos rfl, if_pos rfl]
    have hdata : (intRepr fr.energy ++ " " ++
        joinSp (fr.virial.map intRepr)).data =
        (intRepr fr.energy).data ++
          ' ' :: sepJoinSp ((fr.virial.map intRepr).map String.data) := by
      simp [String.data_append, joinSp,
        show (" " : String).data = [' '] from rfl]
    rw [hdata, splitSp_append _ _ (fun c hc => (intRepr_no_space hc).1)]
    have hne : (fr.virial.map intRepr).map String.data ≠ [] := by
      intro hcon
      have := congrArg List.length hcon
      simp [hvlen] at this
    rw [splitSp_sepJoinSp _ hne (fun p hp c hc => by
      rcases List.mem_map.mp hp with ⟨s2, hs2, rfl⟩
      rcases List.mem_map.mp hs2 with ⟨q, _, rfl⟩
      exact (intRepr_no_space hc).1)]
    rw [List.map_map]
    rfl

/-- A concrete system with full virial coverage: one set, one frame. -/
def exVirialSys : SystemData :=
  { atom_types := [0], atom_numbs := [1], atom_names := ["H"],
    orig := [0, 0, 0], docname := "d", frames := 1,
    cells := [⟨1, 0, 0, 0, 1, 0, 0, 0, 1⟩], coords := [[⟨0, 0, 0⟩]],
    energies := some [3], forces := some [[⟨0, 0, 0⟩]],
    virials := some [⟨1, 2, 3, 4, 5, 6, 7, 8, 9⟩], nopbc := false }

/-- The frame the merge loop produces from `exVirialSys`. -/
def exMergedFr : MergedFrame := (mergeFrame exVirialSys 0).toOption.getD default

/-- C8 witness: the energy line of the frame merged from `exVirialSys`
tokenizes into the energy followed by its six virial components. -/
theorem claim_C8_witness :
    splitSp (energyLine exMergedFr).data =
      (if exMergedFr.has_virial then
        (intRepr exMergedFr.energy).data ::
          exMergedFr.virial.map (fun q => (intRepr q).data)
      else [(intRepr exMergedFr.energy).data]) :=
  (claim_C8_virial_energy_line exVirialSys 0 exMergedFr rfl).2.2

/-- C10: the merge succeeds only when every system carries both an energy
and a force sequence: although the set loader treats both files as
optional, the per-frame merge reads the `energies` and `forces` keys
unconditionally, so a successfully aggregated system lacking either key
makes `read_multi_deepmd` fail instead of producing a merged collection. -/
theorem claim_C10_missing_key_fails (entries : List DirEntry) (name : String)
    (d : SysDir) (idata : SystemData)
    (hmem : DirEntry.dir name d ∈ entries)
    (hsys : to_system_data name d = .ok idata)
    (hlack : idata.energies = none ∨ idata.forces = none) :
    (read_multi_deepmd entries).isOk = false := by
  cases hr : read_multi_deepmd entries with
  | error e => rfl
  | ok md =>
    exfalso
    unfold read_multi_deepmd at hr
    simp only [bind_ok_iff] at hr
    obtain ⟨dm, hdm, hrest⟩ := hr
    have hmem2 : (name, d) ∈ subdirsOf entries := subdirsOf_mem hmem
    rcases mapE_ok_mem_left _ _ _ hdm (name, d) hmem2 with ⟨idata2, hin, hok⟩
    rw [hsys] at hok
    have hd2 := (Except.ok.injEq _ _).mp hok
    subst hd2
    cases dm with
    | nil => simp at hin
    | cons s0 srest =>
      simp only [bind_ok_iff] at hrest
      obtain ⟨fss, hfss, hmd⟩ := hrest
      rcases mapE_ok_mem_left _ _ _ hfss idata hin with ⟨fl, _, hfl⟩
      have hpos := to_system_data_frames_pos hsys
      have h0 : 0 ∈ List.range idata.frames := List.mem_range.mpr (by omega)
      rcases mapE_ok_mem_left _ _ _ hfl 0 h0 with ⟨fr, _, hfr⟩
      obtain ⟨⟨ens, e, hens, _, _⟩, ⟨fs, hfs⟩, _⟩ := mergeFrame_ok_spec hfr
      rcases hlack with hl | hl
      · rw [hl] at hens
        exact absurd hens (by simp)
      · rw [hl] at hfs
        exact absurd hfs (by simp)

/-- A set directory whose `force.npy` is absent. -/
def exNoForceSet : SetDir :=
  { box := [1, 0, 0, 0, 1, 0, 0, 0, 1], coord := [0, 0, 0],
    energy := some [1], force := none, virial := none }

/-- A system directory that aggregates successfully but carries no
`forces` key. -/
def exNoForceSys : SysDir :=
  { type_raw := [0], type_map_raw := some ["H"], nopbc := false,
    sets := [exNoForceSet] }

/-- The aggregated record of `exNoForceSys`. -/
def exNoForceData : SystemData :=
  (to_system_data "s" exNoForceSys).toOption.getD default

/-- C10 witness: merging a directory whose single system lacks forces
fails. -/
theorem claim_C10_witness :
    (read_multi_deepmd [DirEntry.dir "s" exNoForceSys]).isOk = false :=
  claim_C10_missing_key_fails [DirEntry.dir "s" exNoForceSys] "s"
    exNoForceSys exNoForceData (by simp) rfl (Or.inr rfl)

/-- C4: round trip — serializing a merged collection (whose stored
`nframe` matches its frame list, as the merger guarantees) and re-parsing
the written header block recovers the total frame count and the exact
`(atom_count, has_virial)` pairs of the collection, in frame order. -/
theorem claim_C4_header_roundtrip (d : MergedData) (out : String)
    (hlen : d.nframe = d.frames.length) (h : dump d = .ok out) :
    parseHeader out = some (d.nframe,
      d.frames.map (fun fr => (fr.atom_numbs, fr.has_virial))) := by
  obtain ⟨bodies, hout⟩ := dump_ok_spec hlen h
  subst hout
  unfold parseHeader
  have hdata : (natRepr d.nframe ++ "\n" ++ strJoin (d.frames.map headerLine)
      ++ strJoin bodies).data =
      natReprChars d.nframe ++ '\n' ::
        ((strJoin (d.frames.map headerLine)).data ++ (strJoin bodies).data) := by
    simp [String.data_append, natRepr,
      show ("\n" : String).data = ['\n'] from rfl]
  rw [hdata]
  rw [takeLine_append _ _ (fun c hc => (natReprChars_no_space hc).2),
    dropLine_append _ _ (fun c hc => (natReprChars_no_space hc).2)]
  rw [parseNatChars_natReprChars]
  show (parseHeaderLines d.nframe
      ((strJoin (d.frames.map headerLine)).data ++ (strJoin bodies).data)).map
      (fun ps => (d.nframe, ps)) = _
  rw [hlen, parseHeaderLines_block d.frames ((strJoin bodies).data)]
  rfl

/-- A one-frame merged collection for the round-trip witness. -/
def exMerged : MergedData := { nframe := 1, frames := [exFrame] }

/-- C4 witness: serializing `exMerged` and re-parsing its header recovers
the pair `(1, false)`. -/
theorem claim_C4_witness :
    parseHeader ((dump exMerged).toOption.getD "") = some (1, [(1, false)]) :=
  claim_C4_header_roundtrip exMerged ((dump exMerged).toOption.getD "") rfl rfl

theorem flatten_length {α : Type} :
    ∀ l : List (List α), l.flatten.length = (l.map List.length).sum := by
  intro l
  induction l with
  | nil => rfl
  | cons x l ih => simp [ih]

/-- C1 (amended): the global frame count `nframe` is the sum of the
per-system `frames` fields — each being the frame count of that system's
lexicographically last subset, not of the full subset concatenation — the
merged collection holds exactly `nframe` frames, and each system
contributes its first `frames` merged frames as one consecutive block of
global indices, in system order (witnessed by the per-frame origin names
forming the concatenation of one constant block per system). -/
theorem claim_C1_frame_layout (entries : List DirEntry)
    (sds : List SystemData) (md : MergedData)
    (hs : mapE (fun nd => to_system_data nd.1 nd.2) (subdirsOf entries) = .ok sds)
    (hr : read_multi_deepmd entries = .ok md) :
    md.nframe = (sds.map SystemData.frames).sum ∧
    md.frames.length = md.nframe ∧
    md.frames.map MergedFrame.docname =
      (sds.map (fun s => List.replicate s.frames s.docname)).flatten := by
  unfold read_multi_deepmd at hr
  simp only [bind_ok_iff] at hr
  obtain ⟨dm, hdm, hrest⟩ := hr
  rw [hs] at hdm
  have hd2 := (Except.ok.injEq _ _).mp hdm
  subst hd2
  cases sds with
  | nil => exact absurd hrest (by simp)
  | cons s0 srest =>
    simp only [bind_ok_iff] at hrest
    obtain ⟨fss, hfss, hmd⟩ := hrest
    have hmd2 := (Except.ok.injEq _ _).mp hmd
    subst hmd2
    obtain ⟨hlens, hdocs⟩ := merged_blocks_spec (s0 :: srest) fss hfss
    refine ⟨rfl, ?_, hdocs⟩
    show fss.flatten.length = ((s0 :: srest).map SystemData.frames).sum
    rw [flatten_length, hlens]

/-- First subset of the two-subset counterexample system: one frame. -/
def exSet1 : SetDir :=
  { box := [1, 0, 0, 0, 1, 0, 0, 0, 1], coord := [0, 0, 0],
    energy := some [5], force := some [0, 0, 0], virial := none }

/-- Second subset of the counterexample system: two frames. -/
def exSet2 : SetDir :=
  { box := [1, 0, 0, 0, 1, 0, 0, 0, 1, 1, 0, 0, 0, 1, 0, 0, 0, 1],
    coord := [0, 0, 0, 1, 1, 1], energy := some [6, 7],
    force := some [0, 0, 0, 0, 0, 0], virial := none }

/-- A system with two subsets holding 1 and 2 frames: the concatenated
arrays carry 3 frames while the stored `frames` field is 2. -/
def exTwoSetSys : SysDir :=
  { type_raw := [0], type_map_raw := some ["H"], nopbc := false,
    sets := [exSet1, exSet2] }

/-- A parent directory holding exactly the two-subset system. -/
def exTwoSetEntries : List DirEntry := [DirEntry.dir "sys0" exTwoSetSys]

/-- C1 counterexample: for the two-subset system the merge succeeds with
`nframe = 2`, while concatenating that system's subset Frame-Sets along
the frame axis yields 3 frames, so `nframe` is not the sum of the
concatenated per-system frame counts and the third concatenated frame
receives no global index. -/
theorem claim_C1_counterexample :
    (read_multi_deepmd exTwoSetEntries).toOption.map MergedData.nframe =
      some 2 ∧
    (to_system_data "sys0" exTwoSetSys).toOption.map
      (fun s => s.cells.length) = some 3 ∧
    (2 : ℕ) ≠ 3 :=
  ⟨rfl, rfl, by decide⟩

/-- The per-system records of the counterexample directory. -/
def exTwoSetSds : List SystemData :=
  (mapE (fun nd => to_system_data nd.1 nd.2)
    (subdirsOf exTwoSetEntries)).toOption.getD []

/-- The merged collection of the counterexample directory. -/
def exTwoSetMd : MergedData :=
  (read_multi_deepmd exTwoSetEntries).toOption.getD default

/-- C1 witness: the amended layout equations instantiated on the
two-subset directory. -/
theorem claim_C1_witness :
    exTwoSetMd.nframe = (exTwoSetSds.map SystemData.frames).sum ∧
    exTwoSetMd.frames.length = exTwoSetMd.nframe ∧
    exTwoSetMd.frames.map MergedFrame.docname =
      (exTwoSetSds.map (fun s => List.replicate s.frames s.docname)).flatten :=
  claim_C1_frame_layout exTwoSetEntries exTwoSetSds exTwoSetMd rfl rfl
